import Mathlib

/-!
Verification development for the jobs-scraper repository.

The repository contains three near-duplicate Express servers:
* the "base" variant (first document in `src/index.js`),
* the "scored" variant (second document in `src/index.js`, with
  `relevanceScore` and `extractSalary`),
* the "part_001" variant (`src/unnamed/part_001`, with a job store,
  skills extraction, a job-details endpoint and an admin cache-clear
  endpoint).

Each JavaScript function used by the claims is embedded below as an
executable Lean definition.  Strings are modelled by Lean `String`
(a list of characters); JavaScript falsiness of strings is modelled by
equality with `""`; `undefined`/`null` string fields are modelled as
`""` as well, and values that the code leaves absent are modelled with
`Option`.  The whitespace class `\s` is modelled by its ASCII part
(space, tab, newline, carriage return, form feed, vertical tab); the
sources only ever produce ASCII whitespace.
-/

/-- Characters matched by the JavaScript `\s` class (ASCII part). -/
def isWs (c : Char) : Bool :=
  c = ' ' || c = '\t' || c = '\n' || c = '\r' || c = '\x0c' || c = '\x0b'

/-- Characters matched by the character class `[\n\r\t]`. -/
def isNrt (c : Char) : Bool :=
  c = '\n' || c = '\r' || c = '\t'

/-- One pass of `String.prototype.replace(/<class>+/g, emit)`: every maximal
run of characters satisfying `p` is replaced by the single character `emit`.
The flag `prev` records whether we are currently inside a run whose
replacement character has already been emitted. -/
def collapseAux (p : Char → Bool) (emit : Char) : Bool → List Char → List Char
  | _, [] => []
  | prev, c :: rest =>
    if p c then
      if prev then collapseAux p emit true rest
      else emit :: collapseAux p emit true rest
    else c :: collapseAux p emit false rest

/-- The `text.replace(/\s+/g, ' ')`. -/
def collapseWs (l : List Char) : List Char := collapseAux isWs ' ' false l

/-- The `text.replace(/[\n\r\t]+/g, ' ')`. -/
def collapseNrt (l : List Char) : List Char := collapseAux isNrt ' ' false l

/-- The `text.replace(/\s+/g, '_')` (used by the part_001 cache key). -/
def underscoreWs (l : List Char) : List Char := collapseAux isWs '_' false l

/-- The `String.prototype.trim()`: drop leading and trailing whitespace. -/
def trimWs (l : List Char) : List Char :=
  ((l.dropWhile isWs).reverse.dropWhile isWs).reverse

mutual

/-- The `text.replace(/\s{2,}/g, ' ')`: every maximal whitespace run of length at
least two is replaced by a single space; an isolated whitespace character is
kept unchanged.  Entry state: not inside a run. -/
def squeezeWs : List Char → List Char
  | [] => []
  | c :: rest => if isWs c then squeezePend c rest else c :: squeezeWs rest

/-- State: one pending whitespace character `pend` has been seen; whether it
starts a long run depends on the next character. -/
def squeezePend (pend : Char) : List Char → List Char
  | [] => [pend]
  | d :: rest =>
    if isWs d then ' ' :: squeezeSkip rest
    else pend :: d :: squeezeWs rest

/-- State: inside a long run whose replacement space is already emitted. -/
def squeezeSkip : List Char → List Char
  | [] => []
  | d :: rest => if isWs d then squeezeSkip rest else d :: squeezeWs rest

end

/-- The `cleanText` of the base variant (src/index.js, first document):
`text ? text.replace(/\s+/g, ' ').trim() : ''`. -/
def cleanTextBase (s : String) : String :=
  if s = "" then "" else String.mk (trimWs (collapseWs s.data))

/-- The `cleanText` of the part_001 variant (identical in the scored variant):
`if (!text) return ''; return
text.replace(/\s+/g,' ').trim().replace(/[\n\r\t]+/g,' ').replace(/\s{2,}/g,' ')`. -/
def cleanText (s : String) : String :=
  if s = "" then ""
  else String.mk (squeezeWs (collapseNrt (trimWs (collapseWs s.data))))

/-- The `String.prototype.toLowerCase()` (ASCII model, `Char.toLower`). -/
def jsToLower (s : String) : String := String.mk (s.data.map Char.toLower)

/-- The `generateCacheKey` of both `src/index.js` variants:
`` `search:${keywords.toLowerCase()}:${location.toLowerCase()}` ``. -/
def generateCacheKeyBase (keywords location : String) : String :=
  "search:" ++ jsToLower keywords ++ ":" ++ jsToLower location

/-- The `generateCacheKey` of the part_001 variant:
`` `search:${keywords.toLowerCase().replace(/\s+/g,'_')}:${location.toLowerCase().replace(/\s+/g,'_')}` ``. -/
def generateCacheKey (keywords location : String) : String :=
  "search:" ++ String.mk (underscoreWs (jsToLower keywords).data) ++ ":" ++
    String.mk (underscoreWs (jsToLower location).data)

/-!
## The salary matcher (`extractSalary`)

The JavaScript function tries four regular expressions in order against the
whole text and returns `match[0]` of the first one that matches anywhere
(leftmost match), or `null`.

Each pattern is embedded as a deterministic greedy matcher over `List Char`
returning the consumed characters and the rest of the input.  For these
particular patterns greedy matching without backtracking agrees with the
backtracking regex semantics: after the greedy sub-matches `\d{1,3}` and
`(?:,\d{3})*` the next input character is a digit (for `\d{1,3}`) or a comma
(for the star), and no continuation atom of any of the four patterns can
start with a digit or a comma, so giving characters back can never turn a
failure into a success; the alternations `to|-`, `per|/`, `k|thousand` and
`year|yr|hour|hr|month` are prefix-disjoint at their first or second
character in the same way.
-/

/-- A matcher: consumed characters and remaining input, or failure. -/
def MatchFn : Type := List Char → Option (List Char × List Char)

/-- Sequencing of matchers. -/
def pseq (a b : MatchFn) : MatchFn := fun l =>
  match a l with
  | none => none
  | some (c1, r1) =>
    match b r1 with
    | none => none
    | some (c2, r2) => some (c1 ++ c2, r2)

/-- Ordered alternation of matchers. -/
def palt (a b : MatchFn) : MatchFn := fun l =>
  match a l with
  | some x => some x
  | none => b l

/-- A single character satisfying `p`. -/
def pchar (p : Char → Bool) : MatchFn := fun l =>
  match l with
  | [] => none
  | c :: r => if p c then some ([c], r) else none

/-- The `\s*`: a possibly empty greedy run of whitespace. -/
def pwsStar : MatchFn := fun l => some (l.takeWhile isWs, l.dropWhile isWs)

/-- A literal string, compared case-insensitively (the patterns carry the
`/i` flag); the original input characters are the ones consumed. -/
def pstrCI : List Char → MatchFn
  | [], l => some ([], l)
  | _ :: _, [] => none
  | c :: cs, d :: l =>
    if d.toLower = c.toLower then
      match pstrCI cs l with
      | none => none
      | some (m, r) => some (d :: m, r)
    else none

/-- The `\d{1,3}`, greedy. -/
def digits13 : MatchFn := fun l =>
  match l with
  | [] => none
  | c1 :: rest1 =>
    if c1.isDigit then
      match rest1 with
      | c2 :: rest2 =>
        if c2.isDigit then
          match rest2 with
          | c3 :: rest3 =>
            if c3.isDigit then some ([c1, c2, c3], rest3)
            else some ([c1, c2], rest2)
          | [] => some ([c1, c2], [])
        else some ([c1], rest1)
      | [] => some ([c1], [])
    else none

/-- The `(?:,\d{3})*`, greedy; always succeeds. -/
def commaGroups : List Char → List Char × List Char
  | a :: d1 :: d2 :: d3 :: rest =>
    if a = ',' && d1.isDigit && d2.isDigit && d3.isDigit then
      let (c, r) := commaGroups rest
      (a :: d1 :: d2 :: d3 :: c, r)
    else ([], a :: d1 :: d2 :: d3 :: rest)
  | l => ([], l)

/-- The `(?:\.\d{2})?`, greedy; always succeeds. -/
def decPart : List Char → List Char × List Char
  | a :: d1 :: d2 :: rest =>
    if a = '.' && d1.isDigit && d2.isDigit then ([a, d1, d2], rest)
    else ([], a :: d1 :: d2 :: rest)
  | l => ([], l)

/-- The `\d{1,3}(?:,\d{3})*(?:\.\d{2})?`: the number shape shared by all four
salary patterns. -/
def numPat : MatchFn := fun l =>
  match digits13 l with
  | none => none
  | some (c1, r1) =>
    let (c2, r2) := commaGroups r1
    let (c3, r3) := decPart r2
    some (c1 ++ c2 ++ c3, r3)

/-- Pattern 1: `\$num\s*-\s*\$num`. -/
def patDollarRange : MatchFn :=
  pseq (pchar (· = '$')) (pseq numPat (pseq pwsStar (pseq (pchar (· = '-'))
    (pseq pwsStar (pseq (pchar (· = '$')) numPat)))))

/-- Pattern 2: `\$num\s*(?:to|-)\s*\$num` (case-insensitive `to`). -/
def patDollarToRange : MatchFn :=
  pseq (pchar (· = '$')) (pseq numPat (pseq pwsStar
    (pseq (palt (pstrCI "to".data) (pchar (· = '-')))
      (pseq pwsStar (pseq (pchar (· = '$')) numPat)))))

/-- Pattern 3: `num\s*-\s*num\s*(?:k|K|thousand)` (case-insensitive). -/
def patKRange : MatchFn :=
  pseq numPat (pseq pwsStar (pseq (pchar (· = '-')) (pseq pwsStar
    (pseq numPat (pseq pwsStar
      (palt (pchar (fun c => c.toLower = 'k')) (pstrCI "thousand".data)))))))

/-- Pattern 4: `\$num\s*(?:per|/)\s*(?:year|yr|hour|hr|month)`
(case-insensitive). -/
def patPerUnit : MatchFn :=
  pseq (pchar (· = '$')) (pseq numPat (pseq pwsStar
    (pseq (palt (pstrCI "per".data) (pchar (· = '/'))) (pseq pwsStar
      (palt (pstrCI "year".data) (palt (pstrCI "yr".data)
        (palt (pstrCI "hour".data) (palt (pstrCI "hr".data)
          (pstrCI "month".data)))))))))

/-- The `text.match(pattern)`: leftmost match of the matcher in the text,
returning the matched characters (`match[0]`). -/
def firstMatch (m : MatchFn) : List Char → Option (List Char)
  | [] =>
    match m [] with
    | some (c, _) => some c
    | none => none
  | c :: rest =>
    match m (c :: rest) with
    | some (cs, _) => some cs
    | none => firstMatch m rest

/-- The `extractSalary` of the part_001 variant (identical in the scored
variant): tries the four patterns in order over the whole text; returns the
first match, or `null` (here `none`); `!text` yields `null`. -/
def extractSalary (text : String) : Option String :=
  if text = "" then none
  else
    match firstMatch patDollarRange text.data with
    | some m => some (String.mk m)
    | none =>
      match firstMatch patDollarToRange text.data with
      | some m => some (String.mk m)
      | none =>
        match firstMatch patKRange text.data with
        | some m => some (String.mk m)
        | none =>
          match firstMatch patPerUnit text.data with
          | some m => some (String.mk m)
          | none => none

/-!
## Skills, raw records and record normalizers
-/

/-- Does `needle` occur as a contiguous substring of `hay`
(`String.prototype.includes`)? -/
def occursIn (needle : List Char) : List Char → Bool
  | [] => needle.isEmpty
  | c :: rest => needle.isPrefixOf (c :: rest) || occursIn needle rest

/-- The fixed skills vocabulary of the part_001 variant (`commonSkills`),
in its source order. -/
def commonSkills : List String :=
  ["JavaScript", "Python", "Java", "C++", "C#", "PHP", "Ruby", "Go", "Rust", "Swift",
   "React", "Angular", "Vue.js", "Node.js", "Express.js", "Django", "Flask", "Spring",
   "AWS", "Azure", "Google Cloud", "Docker", "Kubernetes", "Terraform", "Ansible",
   "MySQL", "PostgreSQL", "MongoDB", "Redis", "Elasticsearch", "SQL",
   "Git", "Jenkins", "CI/CD", "Agile", "Scrum", "Jira", "Confluence",
   "REST API", "GraphQL", "Microservices", "Machine Learning", "AI", "Data Science",
   "HTML", "CSS", "SASS", "TypeScript", "Webpack", "Babel", "Redux", "Next.js"]

/-- The `extractSkills` of the part_001 variant: case-insensitive substring scan
of the description against the vocabulary, results in vocabulary order,
capped at 10. -/
def extractSkills (description : String) : List String :=
  if description = "" then []
  else
    (commonSkills.filter
      (fun skill => occursIn (jsToLower skill).data (jsToLower description).data)).take 10

/-- JavaScript `a || b` on strings (empty string is falsy). -/
def jsOr (a b : String) : String := if a = "" then b else a

/-- A raw per-source job record, as built by the adapters before
normalization.  `""` models an absent/`undefined`/`null` field. -/
structure RawJob where
  title : String := ""
  company : String := ""
  location : String := ""
  salary : String := ""
  description : String := ""
  url : String := ""
  postedDate : String := ""
  jobType : String := ""
  experience : String := ""
deriving DecidableEq

/-- The canonical normalized job of the part_001 variant. -/
structure Job where
  id : String
  title : String
  company : String
  location : String
  salary : Option String
  description : String
  url : String
  source : String
  postedDate : String
  remote : Bool
  jobType : String
  experience : String
  skills : List String
deriving DecidableEq

/-- The `normalizeJobData` of the part_001 variant.  It is a plain function of
the raw record and the source: the only impure ingredients of the original,
the fresh `uuidv4()` identifier and the current-date fallback, are passed in
as the explicit arguments `id` and `today`.  This variant performs no store
insertion. -/
def normalizeJobData (id today : String) (job : RawJob) (source : String) : Job :=
  let isRemote : Bool :=
    source = "remoteok" ||
      (job.location ≠ "" && occursIn "remote".data (jsToLower job.location).data)
  let description := jsOr (cleanText job.description) ""
  { id := id
    title := jsOr (cleanText job.title) "Not specified"
    company := jsOr (cleanText job.company) "Not specified"
    location := jsOr (cleanText job.location) (if isRemote then "Remote" else "Not specified")
    salary := extractSalary (jsOr job.salary (jsOr job.description ""))
    description := description
    url := jsOr job.url ""
    source := source
    postedDate := jsOr job.postedDate today
    remote := isRemote
    jobType := jsOr job.jobType "Full-time"
    experience := jsOr job.experience "Not specified"
    skills := extractSkills description }

/-- The normalized job of the base variant (src/index.js, first document);
it has no skills, job type or experience, and `salary` is the raw string. -/
structure JobB where
  id : String
  title : String
  company : String
  location : String
  salary : String
  description : String
  url : String
  source : String
  postedDate : String
  remote : Bool
deriving DecidableEq

/-- A JavaScript `Map` / NodeCache store as an association list;
`set` replaces an existing binding in place or appends a new one. -/
def mapSet {α : Type} (m : List (String × α)) (k : String) (v : α) :
    List (String × α) :=
  if (m.lookup k).isSome then
    m.map (fun p => if p.1 == k then (k, v) else p)
  else m ++ [(k, v)]

/-- The `normalizeJobData` of the base variant.  Besides building the record it
executes `jobsStore.set(id, normalizedJob)`: the updated store is returned
alongside the job. -/
def normalizeJobDataBase (id today : String) (job : RawJob) (source : String)
    (jobsStore : List (String × JobB)) : JobB × List (String × JobB) :=
  let isRemote : Bool :=
    source = "remoteok" || source = "github" ||
      (job.location ≠ "" && occursIn "remote".data (jsToLower job.location).data)
  let normalizedJob : JobB :=
    { id := id
      title := jsOr (cleanTextBase job.title) "Job Title"
      company := jsOr (cleanTextBase job.company) "Company"
      location := jsOr (cleanTextBase job.location)
        (if isRemote then "Remote" else "Location not specified")
      salary := jsOr job.salary ""
      description := jsOr (cleanTextBase job.description) ""
      url := jsOr job.url ""
      source := source
      postedDate := jsOr job.postedDate today
      remote := isRemote }
  (normalizedJob, mapSet jobsStore id normalizedJob)

/-- The `calculateRelevanceScore` of the scored variant (src/index.js, second
document).  It is applied to the raw record: base 50, `+20` if `job.title &&
job.company`, `+15` if `job.salary`, `+10` if the description is longer than
50 characters, `+5` if `job.url`, capped by `Math.min(100, score)`. -/
def calculateRelevanceScore (job : RawJob) : Nat :=
  let score := 50
  let score := if job.title ≠ "" ∧ job.company ≠ "" then score + 20 else score
  let score := if job.salary ≠ "" then score + 15 else score
  let score := if job.description ≠ "" ∧ job.description.length > 50 then score + 10 else score
  let score := if job.url ≠ "" then score + 5 else score
  min 100 score

/-!
## Deduplication
-/

/-- The dedupe loop shared by all variants (`seen` set plus `uniqueJobs`
accumulator), generic in the key: a record is kept iff its key has not been
seen before. -/
def dedupeAux {α : Type} (key : α → String) (seen : List String) :
    List α → List α
  | [] => []
  | j :: rest =>
    if key j ∈ seen then dedupeAux key seen rest
    else j :: dedupeAux key (key j :: seen) rest

/-- Dedupe key of the part_001 variant (and the scored variant):
`` `${job.title.toLowerCase()}-${job.company.toLowerCase()}` ``. -/
def dedupeKey (j : Job) : String := jsToLower j.title ++ "-" ++ jsToLower j.company

/-- Dedupe key of the base variant (src/index.js, first document):
`` `${job.title}-${job.company}` `` — no lower-casing. -/
def dedupeKeyBase (j : JobB) : String := j.title ++ "-" ++ j.company

/-- The part_001 dedupe loop. -/
def dedupe (jobs : List Job) : List Job := dedupeAux dedupeKey [] jobs

/-- The base-variant dedupe loop. -/
def dedupeBase (jobs : List JobB) : List JobB := dedupeAux dedupeKeyBase [] jobs

/-- The specification's reading of deduplication: keep the first record of
each distinct key and drop every later record with the same key. -/
def keepFirstByKey {α : Type} (key : α → String) : List α → List α
  | [] => []
  | j :: rest => j :: keepFirstByKey key (rest.filter (fun j2 => key j2 != key j))
termination_by l => l.length
decreasing_by
  simp only [List.length_cons]
  exact Nat.lt_succ_of_le (List.length_filter_le _ _)

/-!
## The part_001 orchestrator

`searchJobs` of part_001, together with the three scrapers it fans out to.
The network is external: each adapter run is summarised by an
`AdapterOutcome` — the raw records it scraped, or a failure (the scraper's
`catch` returns `[]`), or a timeout (the `Promise.race` fallback resolves to
`[]`).  The fresh `uuidv4()` calls are modelled by a counter `n` and the
supply `idOf`; the three concurrent scrapers share `jobsStore`, modelled by
threading the store through them in source order (clause order of the
`Promise.allSettled` array). -/

/-- Fresh-identifier supply standing in for `uuidv4()`. -/
def idOf (n : Nat) : String := "uuid-" ++ toString n

inductive AdapterOutcome
  | ok (raws : List RawJob)
  | fail
  | timeout
deriving DecidableEq

/-- Normalize each raw record in order, inserting every normalized record
into the job store (`jobsStore.set(normalizedJob.id, normalizedJob)` inside
the scraper loops of part_001). -/
def normStoreList (today source : String) :
    List RawJob → Nat → List (String × Job) → List Job × List (String × Job) × Nat
  | [], n, store => ([], store, n)
  | r :: rs, n, store =>
    let j := normalizeJobData (idOf n) today r source
    let (js, store', n') := normStoreList today source rs (n + 1) (mapSet store j.id j)
    (j :: js, store', n')

/-- The `scrapeIndeed` of part_001: keep raw records with truthy title and
company, normalize and store each, return the first 20. -/
def scrapeIndeed (today : String) (n : Nat) (outcome : AdapterOutcome)
    (store : List (String × Job)) : List Job × List (String × Job) × Nat :=
  match outcome with
  | .ok raws =>
    let valid := raws.filter (fun r => r.title != "" && r.company != "")
    let (jobs, store', n') := normStoreList today "indeed" valid n store
    (jobs.take 20, store', n')
  | .fail => ([], store, n)
  | .timeout => ([], store, n)

/-- The `scrapeRemoteOK` of part_001: like Indeed with cap 15. -/
def scrapeRemoteOK (today : String) (n : Nat) (outcome : AdapterOutcome)
    (store : List (String × Job)) : List Job × List (String × Job) × Nat :=
  match outcome with
  | .ok raws =>
    let valid := raws.filter (fun r => r.title != "" && r.company != "")
    let (jobs, store', n') := normStoreList today "remoteok" valid n store
    (jobs.take 15, store', n')
  | .fail => ([], store, n)
  | .timeout => ([], store, n)

/-- The `scrapeLinkedIn` of part_001: the first 15 extracted records are
normalized and stored (`jobs.slice(0, 15).map(...)`); browser failure or
error yields `[]`. -/
def scrapeLinkedIn (today : String) (n : Nat) (outcome : AdapterOutcome)
    (store : List (String × Job)) : List Job × List (String × Job) × Nat :=
  match outcome with
  | .ok raws =>
    let (jobs, store', n') := normStoreList today "linkedin" (raws.take 15) n store
    (jobs, store', n')
  | .fail => ([], store, n)
  | .timeout => ([], store, n)

/-- The part_001 `SearchResult`. -/
structure SearchResult where
  success : Bool
  jobs : List Job
  count : Nat
  keywords : String
  location : String
  sources : List String
  timestamp : String
  cached : Bool
deriving DecidableEq

/-- The `searchJobs` of part_001.  On a cache hit the cached result is returned
with `cached: true` and nothing else happens (no scraper runs, the store is
untouched).  On a miss the three enabled scrapers run, their outputs are
concatenated in source order, deduplicated, capped at
`maxJobsPerResponse = 50`, wrapped into a result with `count` equal to the
capped length, cached and returned.  All scrape promises fulfil (the
scrapers catch their own errors), so `sources` is the full source list. -/
def searchJobs (cache : List (String × SearchResult)) (store : List (String × Job))
    (n : Nat) (keywords location today now : String)
    (oIndeed oRemoteok oLinkedin : AdapterOutcome) :
    SearchResult × List (String × SearchResult) × List (String × Job) × Nat :=
  let cacheKey := generateCacheKey keywords location
  match cache.lookup cacheKey with
  | some cachedData => ({ cachedData with cached := true }, cache, store, n)
  | none =>
    let (j1, store1, n1) := scrapeIndeed today n oIndeed store
    let (j2, store2, n2) := scrapeRemoteOK today n1 oRemoteok store1
    let (j3, store3, n3) := scrapeLinkedIn today n2 oLinkedin store2
    let allJobs := j1 ++ j2 ++ j3
    let uniqueJobs := dedupe allJobs
    let topJobs := uniqueJobs.take 50
    let result : SearchResult :=
      { success := true, jobs := topJobs, count := topJobs.length,
        keywords := keywords, location := location,
        sources := ["indeed", "remoteok", "linkedin"],
        timestamp := now, cached := false }
    (result, mapSet cache cacheKey result, store3, n3)

/-!
## The base-variant orchestrator (src/index.js, first document)

Here the scrapers' outputs enter as already-normalized job lists; the base
scrapers normalize (and thereby store) their records themselves via
`normalizeJobDataBase`.  The built result has no `cached` field (modelled as
`none`); a cache hit returns `{ ...cachedData, cached: true }`. -/

structure SearchResultBase where
  success : Bool
  jobs : List JobB
  count : Nat
  keywords : String
  location : String
  timestamp : String
  cached : Option Bool
deriving DecidableEq

/-- The `searchJobs` of the base variant: dedupe on the case-sensitive key,
`jobs` capped at `maxJobsPerResponse = 25`, but `count` set to the number of
unique jobs before capping. -/
def searchJobsBase (cache : List (String × SearchResultBase))
    (keywords location now : String)
    (indeedJobs remoteokJobs githubJobs : List JobB) :
    SearchResultBase × List (String × SearchResultBase) :=
  let cacheKey := generateCacheKeyBase keywords location
  match cache.lookup cacheKey with
  | some cachedData => ({ cachedData with cached := some true }, cache)
  | none =>
    let allJobs := indeedJobs ++ remoteokJobs ++ githubJobs
    let uniqueJobs := dedupeBase allJobs
    let result : SearchResultBase :=
      { success := true, jobs := uniqueJobs.take 25, count := uniqueJobs.length,
        keywords := keywords, location := location, timestamp := now,
        cached := none }
    (result, mapSet cache cacheKey result)

/-!
## The scored-variant orchestrator (src/index.js, second document)
-/

/-- The scored variant's normalized job. -/
structure JobS where
  id : String
  title : String
  company : String
  location : String
  salary : Option String
  description : String
  url : String
  source : String
  postedDate : String
  remote : Bool
  relevanceScore : Nat
deriving DecidableEq

/-- Dedupe key of the scored variant (lower-cased, line 972 of
src/index.js). -/
def dedupeKeyScored (j : JobS) : String :=
  jsToLower j.title ++ "-" ++ jsToLower j.company

/-- Stable insertion for the descending relevance sort: `j` goes in front of
the first element whose score does not exceed it, so records with equal
scores keep their original order (V8's `Array.prototype.sort` is stable). -/
def insertByScore (j : JobS) : List JobS → List JobS
  | [] => [j]
  | k :: rest =>
    if k.relevanceScore ≤ j.relevanceScore then j :: k :: rest
    else k :: insertByScore j rest

/-- The `uniqueJobs.sort((a, b) => b.relevanceScore - a.relevanceScore)`. -/
def sortByScoreDesc : List JobS → List JobS
  | [] => []
  | j :: rest => insertByScore j (sortByScoreDesc rest)

/-- The scored variant's result object: note there is no `cached` field in
the freshly built object (`none` models the absent field) and the count
field is named `total`. -/
structure SearchResultScored where
  jobs : List JobS
  total : Nat
  keywords : String
  location : String
  timestamp : String
  cached : Option Bool
deriving DecidableEq

/-- The `searchJobs` of the scored variant.  A cache hit returns `cachedData`
unchanged — no `cached: true` is added.  On a miss: concatenate, dedupe on
the lower-cased key, sort by relevance descending, cap at 50, build the
result (without a `cached` field) and cache it. -/
def searchJobsScored (cache : List (String × SearchResultScored))
    (keywords location now : String)
    (indeedJobs linkedinJobs remoteokJobs wwrJobs : List JobS) :
    SearchResultScored × List (String × SearchResultScored) :=
  let cacheKey := generateCacheKeyBase keywords location
  match cache.lookup cacheKey with
  | some cachedData => (cachedData, cache)
  | none =>
    let allJobs := indeedJobs ++ linkedinJobs ++ remoteokJobs ++ wwrJobs
    let uniqueJobs := dedupeAux dedupeKeyScored [] allJobs
    let sorted := sortByScoreDesc uniqueJobs
    let topJobs := sorted.take 50
    let result : SearchResultScored :=
      { jobs := topJobs, total := topJobs.length, keywords := keywords,
        location := location, timestamp := now, cached := none }
    (result, mapSet cache cacheKey result)

/-!
## Server state, the admin clear endpoint and job lookup (part_001)
-/

/-- The long-lived state of the part_001 server: the NodeCache result cache
and the `jobsStore` map. -/
structure ServerState where
  cache : List (String × SearchResult)
  jobsStore : List (String × Job)
deriving DecidableEq

/-- The authorized path of `POST /api/admin/cache/clear` (part_001 lines
1013–1048): it executes `CONFIG.cache.flushAll()` and nothing else — the
`jobsStore` map is not touched. -/
def adminCacheClear (s : ServerState) : ServerState :=
  { cache := [], jobsStore := s.jobsStore }

/-- The `GET /api/job/:jobId` (part_001 lines 724–747): `jobsStore.get(jobId)`;
`none` is the 404 "Job not found" response. -/
def jobLookup (s : ServerState) (jobId : String) : Option Job :=
  s.jobsStore.lookup jobId

/-- The `CONFIG.cache.get(key)` against the server state. -/
def cacheGet (s : ServerState) (key : String) : Option SearchResult :=
  s.cache.lookup key

/-!
## Auxiliary predicates and sample data used by the theorems
-/

/-- An adapter invocation that errors, times out, or returns the empty
list — in all three cases its contribution to the search is empty. -/
def emptyOutcome : AdapterOutcome → Prop
  | .ok raws => raws = []
  | .fail => True
  | .timeout => True

/-- No two adjacent characters are both whitespace. -/
def noAdjacentWs (l : List Char) : Prop :=
  List.Chain' (fun a b => isWs a = false ∨ isWs b = false) l

/-- The shape of whitespace-normalized text: every whitespace character is a
plain space, no two of them are adjacent, and the text neither starts nor
ends with whitespace. -/
def wsNormalized (l : List Char) : Prop :=
  (∀ c ∈ l, isWs c = true → c = ' ') ∧ noAdjacentWs l ∧
    (∀ c, l.head? = some c → isWs c = false) ∧
    (∀ c, l.reverse.head? = some c → isWs c = false)

/-- A concrete normalized part_001 job. -/
def sampleJob : Job :=
  { id := "uuid-0", title := "Backend Engineer", company := "Acme",
    location := "Remote", salary := none, description := "", url := "",
    source := "remoteok", postedDate := "2026-01-01", remote := true,
    jobType := "Full-time", experience := "Not specified", skills := [] }

/-- A concrete part_001 search result. -/
def sampleResult : SearchResult :=
  { success := true, jobs := [sampleJob], count := 1, keywords := "developer",
    location := "", sources := ["indeed", "remoteok", "linkedin"],
    timestamp := "2026-01-01T00:00:00Z", cached := false }

/-- A concrete raw record as an adapter would produce it. -/
def rawSample : RawJob :=
  { title := "Backend Engineer", company := "Acme", location := "Remote",
    description := "Build APIs", url := "https://acme.example/1" }

/-- A base-variant job with the given title (all other fields fixed). -/
def mkJobB (t : String) : JobB :=
  { id := "", title := t, company := "Acme", location := "", salary := "",
    description := "", url := "", source := "indeed", postedDate := "",
    remote := false }

/-- Twenty-six base-variant jobs with pairwise distinct titles. -/
def jobs26 : List JobB :=
  (["a", "b", "c", "d", "e", "f", "g", "h", "i", "j", "k", "l", "m",
    "n", "o", "p", "q", "r", "s", "t", "u", "v", "w", "x", "y", "z"]).map mkJobB

/-- An all-empty raw record (every field degrades to a placeholder). -/
def emptyRaw : RawJob := {}

/-- A raw record with truthy title, company, salary and url and a
description longer than 50 characters. -/
def fullRaw : RawJob :=
  { title := "Backend Engineer", company := "Acme",
    salary := "$80,000 - $95,000", url := "https://acme.example/jobs/1",
    description := "We are seeking a backend engineer with solid API design experience." }

/-!
## General lemmas
-/

/-- Appending a fresh binding makes it visible to lookup. -/
theorem lookup_append_single {α : Type} (m : List (String × α)) (k : String) (v : α)
    (h : m.lookup k = none) : (m ++ [(k, v)]).lookup k = some v := by
  induction m with
  | nil => simp [List.lookup]
  | cons p m ih =>
    obtain ⟨a, b⟩ := p
    by_cases hk : k = a
    · simp [List.lookup_cons, hk] at h
    · simp only [List.cons_append, List.lookup_cons, beq_false_of_ne hk, if_false,
        Bool.false_eq_true]
      exact ih (by simpa [List.lookup_cons, beq_false_of_ne hk] using h)

/-- Replacing the binding of an existing key makes the new value visible. -/
theorem lookup_map_replace {α : Type} (m : List (String × α)) (k : String) (v : α)
    (h : (m.lookup k).isSome) :
    (m.map (fun p => if p.1 == k then (k, v) else p)).lookup k = some v := by
  induction m with
  | nil => simp at h
  | cons p m ih =>
    obtain ⟨a, b⟩ := p
    by_cases hk : a = k
    · subst hk
      simp [List.lookup_cons]
    · have hb : (k == a) = false := beq_false_of_ne (fun h2 => hk h2.symm)
      have hb2 : (a == k) = false := beq_false_of_ne hk
      simp only [List.map_cons, hb2, Bool.false_eq_true, if_false, List.lookup_cons, hb]
      exact ih (by simpa [List.lookup_cons, hb] using h)

/-- Looking up the key just written by `mapSet` yields the written value. -/
theorem lookup_mapSet_self {α : Type} (m : List (String × α)) (k : String) (v : α) :
    (mapSet m k v).lookup k = some v := by
  unfold mapSet
  split
  case isTrue h => exact lookup_map_replace m k v h
  case isFalse h =>
    exact lookup_append_single m k v (Option.not_isSome_iff_eq_none.mp h)

/-!
## C1 — the admin clear operation
-/

/-- C1 counterexample.  The claim states that after the admin clear
operation every previously stored job id yields "not found"; but
`POST /api/admin/cache/clear` only executes `CONFIG.cache.flushAll()`, so a
previously stored job is still found: in a state holding `sampleJob` under
`"uuid-0"`, the lookup after the clear still returns the job. -/
theorem C1_clear_leaves_store_cex :
    jobLookup (adminCacheClear ⟨[("search:developer:", sampleResult)],
        [("uuid-0", sampleJob)]⟩) "uuid-0" = some sampleJob ∧
      jobLookup (adminCacheClear ⟨[("search:developer:", sampleResult)],
        [("uuid-0", sampleJob)]⟩) "uuid-0" ≠ none := by
  constructor
  · rfl
  · intro h
    simp [jobLookup, adminCacheClear, List.lookup] at h

/-- C1 (amended).  The admin clear operation flushes the Result Cache only:
afterwards every cache lookup misses, while the Job Store is untouched, so a
job lookup returns exactly what it returned before the clear (in particular
a previously stored id is still found, not "not found"). -/
theorem C1_clear_flushes_cache_only :
    ∀ (s : ServerState) (jobId key : String),
      jobLookup (adminCacheClear s) jobId = jobLookup s jobId ∧
        cacheGet (adminCacheClear s) key = none := by
  intro s jobId key
  exact ⟨rfl, rfl⟩

/-!
## C5 — the relevance scorer
-/

/-- C5.  `calculateRelevanceScore` always lies in `[0, 100]` (indeed in
`[50, 100]`) and equals the additive formula of the spec: base 50, `+20`
for a present (non-placeholder) title and company, `+15` for a present
salary, `+10` for a description longer than 50 characters, `+5` for a
non-empty url, capped at 100.  An all-empty (all-placeholder) record scores
exactly 50 and a record with title, company, salary, url and a long
description scores exactly 100. -/
theorem C5_score_range_and_formula :
    (∀ job : RawJob,
      50 ≤ calculateRelevanceScore job ∧ calculateRelevanceScore job ≤ 100 ∧
        calculateRelevanceScore job =
          min 100 (50 + (if job.title ≠ "" ∧ job.company ≠ "" then 20 else 0)
            + (if job.salary ≠ "" then 15 else 0)
            + (if job.description ≠ "" ∧ job.description.length > 50 then 10 else 0)
            + (if job.url ≠ "" then 5 else 0))) ∧
      calculateRelevanceScore emptyRaw = 50 ∧
      calculateRelevanceScore fullRaw = 100 := by
  refine ⟨fun job => ?_, by decide, by decide⟩
  have h : calculateRelevanceScore job =
      min 100 (50 + (if job.title ≠ "" ∧ job.company ≠ "" then 20 else 0)
        + (if job.salary ≠ "" then 15 else 0)
        + (if job.description ≠ "" ∧ job.description.length > 50 then 10 else 0)
        + (if job.url ≠ "" then 5 else 0)) := by
    simp only [calculateRelevanceScore]
    split_ifs <;> rfl
  rw [h]
  refine ⟨?_, ?_, rfl⟩ <;> split_ifs <;> decide

/-!
## C4 — total adapter failure
-/

/-- C4.  When every enabled adapter errors, times out or returns the empty
list, the part_001 `searchJobs` still returns a valid `SearchResult` with
`success: true`, an empty job list and `count = 0`.  The embedding is a
total function — the code path reaches the normal result construction, so
no error is thrown to the caller. -/
theorem C4_total_failure_yields_empty_result :
    ∀ (store : List (String × Job)) (n : Nat)
      (keywords location today now : String) (o1 o2 o3 : AdapterOutcome),
      emptyOutcome o1 → emptyOutcome o2 → emptyOutcome o3 →
      (searchJobs [] store n keywords location today now o1 o2 o3).1.success = true ∧
        (searchJobs [] store n keywords location today now o1 o2 o3).1.jobs = [] ∧
        (searchJobs [] store n keywords location today now o1 o2 o3).1.count = 0 := by
  intro store n keywords location today now o1 o2 o3 h1 h2 h3
  have e1 : scrapeIndeed today n o1 store = ([], store, n) := by
    cases o1 with
    | ok raws => rw [show raws = [] from h1]; rfl
    | fail => rfl
    | timeout => rfl
  have e2 : scrapeRemoteOK today n o2 store = ([], store, n) := by
    cases o2 with
    | ok raws => rw [show raws = [] from h2]; rfl
    | fail => rfl
    | timeout => rfl
  have e3 : scrapeLinkedIn today n o3 store = ([], store, n) := by
    cases o3 with
    | ok raws => rw [show raws = [] from h3]; rfl
    | fail => rfl
    | timeout => rfl
  simp only [searchJobs, List.lookup_nil, e1, e2, e3]
  exact ⟨trivial, rfl, rfl⟩

/-- C4 witness: one adapter fails, one times out, one returns no records;
the search returns the empty, successful result. -/
theorem C4_total_failure_witness :
    (searchJobs [] [] 0 "developer" "" "2026-01-01" "t"
        .fail .timeout (.ok [])).1.success = true ∧
      (searchJobs [] [] 0 "developer" "" "2026-01-01" "t"
        .fail .timeout (.ok [])).1.jobs = [] ∧
      (searchJobs [] [] 0 "developer" "" "2026-01-01" "t"
        .fail .timeout (.ok [])).1.count = 0 :=
  C4_total_failure_yields_empty_result [] 0 "developer" "" "2026-01-01" "t"
    .fail .timeout (.ok []) True.intro True.intro rfl

/-!
## C10 — count before truncation (base variant) vs after (part_001)
-/

/-- C10.  On a cache miss of the base-variant orchestrator, `count` is the
number of deduplicated jobs before truncation while `jobs` is capped at
`maxJobsPerResponse = 25`; hence with more than 25 unique jobs `count`
strictly exceeds the length of `jobs`.  The part_001 variant instead sets
`count` to the post-truncation length of the job list. -/
theorem C10_count_semantics :
    (∀ (keywords location now : String) (indeedJobs remoteokJobs githubJobs : List JobB),
      (searchJobsBase [] keywords location now indeedJobs remoteokJobs githubJobs).1.count =
          (dedupeBase (indeedJobs ++ remoteokJobs ++ githubJobs)).length ∧
        (searchJobsBase [] keywords location now indeedJobs remoteokJobs githubJobs).1.jobs =
          (dedupeBase (indeedJobs ++ remoteokJobs ++ githubJobs)).take 25 ∧
        (25 < (dedupeBase (indeedJobs ++ remoteokJobs ++ githubJobs)).length →
          (searchJobsBase [] keywords location now indeedJobs remoteokJobs
              githubJobs).1.jobs.length <
            (searchJobsBase [] keywords location now indeedJobs remoteokJobs
              githubJobs).1.count)) ∧
      (∀ (store : List (String × Job)) (n : Nat)
        (keywords location today now : String) (o1 o2 o3 : AdapterOutcome),
        (searchJobs [] store n keywords location today now o1 o2 o3).1.count =
          (searchJobs [] store n keywords location today now o1 o2 o3).1.jobs.length) := by
  constructor
  · intro keywords location now indeedJobs remoteokJobs githubJobs
    refine ⟨rfl, rfl, fun h => ?_⟩
    show ((dedupeBase (indeedJobs ++ remoteokJobs ++ githubJobs)).take 25).length <
      (dedupeBase (indeedJobs ++ remoteokJobs ++ githubJobs)).length
    rw [List.length_take]
    omega
  · intro store n keywords location today now o1 o2 o3
    rfl

/-- C10 witness: 26 unique jobs from one adapter; the truncated `jobs` list
is strictly shorter than `count`. -/
theorem C10_count_semantics_witness :
    25 < (dedupeBase (jobs26 ++ [] ++ [])).length ∧
      (searchJobsBase [] "developer" "" "t" jobs26 [] []).1.jobs.length <
        (searchJobsBase [] "developer" "" "t" jobs26 [] []).1.count :=
  ⟨by decide, (C10_count_semantics.1 "developer" "" "t" jobs26 [] []).2.2 (by decide)⟩

/-!
## C2 — deduplication
-/

/-- The seen-set dedupe loop equals the "drop every later record with an
already seen key" filter, restricted to records whose key is not yet in the
seen set. -/
theorem dedupeAux_eq_keepFirst {α : Type} (key : α → String) :
    ∀ (l : List α) (seen : List String),
      dedupeAux key seen l =
        keepFirstByKey key (l.filter (fun j => decide (key j ∉ seen))) := by
  intro l
  induction l with
  | nil => intro seen; simp [dedupeAux, keepFirstByKey]
  | cons j rest ih =>
    intro seen
    by_cases h : key j ∈ seen
    · have hd : (decide (key j ∉ seen)) = false := by simpa using h
      simp only [dedupeAux, if_pos h, List.filter_cons, hd, Bool.false_eq_true, if_false]
      exact ih seen
    · have hd : (decide (key j ∉ seen)) = true := by simpa using h
      simp only [dedupeAux, if_neg h, List.filter_cons, hd, if_true]
      rw [keepFirstByKey]
      congr 1
      rw [ih (key j :: seen), List.filter_filter]
      congr 1
      apply List.filter_congr
      intro a _
      by_cases h1 : key a = key j <;> by_cases h2 : key a ∈ seen <;>
        simp [h1, h2, bne, beq_iff_eq]

/-- Dedupe starting from an empty seen set is exactly the first-occurrence
filter of the specification. -/
theorem dedupe_empty_seen {α : Type} (key : α → String) (l : List α) :
    dedupeAux key [] l = keepFirstByKey key l := by
  rw [dedupeAux_eq_keepFirst]
  congr 1
  simp

/-- The dedupe loop is an order-preserving filter: its output is a sublist
of its input. -/
theorem dedupeAux_sublist {α : Type} (key : α → String) :
    ∀ (l : List α) (seen : List String), (dedupeAux key seen l).Sublist l := by
  intro l
  induction l with
  | nil => intro seen; exact List.Sublist.refl []
  | cons j rest ih =>
    intro seen
    by_cases h : key j ∈ seen
    · simp only [dedupeAux, if_pos h]
      exact List.Sublist.cons j (ih seen)
    · simp only [dedupeAux, if_neg h]
      exact List.Sublist.cons₂ j (ih (key j :: seen))

/-- C2 counterexample.  In the base variant (src/index.js, first document)
the dedupe key is the raw `` `${job.title}-${job.company}` `` without
lower-casing: two records whose lower-cased title-company keys coincide but
whose raw titles differ in case are BOTH kept, contradicting the claim that
dedupe keeps exactly the first record per distinct lower-cased key. -/
theorem C2_dedupe_not_lowercased_cex :
    (jsToLower (mkJobB "Dev").title ++ "-" ++ jsToLower (mkJobB "Dev").company =
      jsToLower (mkJobB "dev").title ++ "-" ++ jsToLower (mkJobB "dev").company) ∧
      dedupeBase [mkJobB "Dev", mkJobB "dev"] = [mkJobB "Dev", mkJobB "dev"] := by
  decide

/-- C2 (amended).  Every dedupe loop of the repository is a stable,
order-preserving first-occurrence filter (it equals the
drop-later-duplicates function and its output is a sublist of its input).
The key is the lower-cased `"{title}-{company}"` in the part_001 and scored
variants, but the raw case-sensitive `"{title}-{company}"` in the base
variant, so only the former collapse case-differing duplicates. -/
theorem C2_dedupe_first_occurrence :
    (∀ jobs : List Job,
      dedupe jobs = keepFirstByKey dedupeKey jobs ∧ (dedupe jobs).Sublist jobs) ∧
      (∀ jobs : List JobS,
        dedupeAux dedupeKeyScored [] jobs = keepFirstByKey dedupeKeyScored jobs ∧
          (dedupeAux dedupeKeyScored [] jobs).Sublist jobs) ∧
      (∀ jobs : List JobB,
        dedupeBase jobs = keepFirstByKey dedupeKeyBase jobs ∧
          (dedupeBase jobs).Sublist jobs) :=
  ⟨fun jobs => ⟨dedupe_empty_seen dedupeKey jobs, dedupeAux_sublist dedupeKey jobs []⟩,
    fun jobs => ⟨dedupe_empty_seen dedupeKeyScored jobs,
      dedupeAux_sublist dedupeKeyScored jobs []⟩,
    fun jobs => ⟨dedupe_empty_seen dedupeKeyBase jobs,
      dedupeAux_sublist dedupeKeyBase jobs []⟩⟩

/-!
## C3 — cache hits
-/

/-- C3 counterexample.  In the scored variant (src/index.js, second
document) a cache hit returns the stored object unchanged
(`return cachedData;`), and the freshly built result carries no `cached`
field.  Hence the second of two identical searches does NOT have
`cached == true`: its `cached` field is still absent (`none`). -/
theorem C3_scored_hit_no_cached_flag_cex :
    (searchJobsScored (searchJobsScored [] "developer" "" "t1" [] [] [] []).2
        "developer" "" "t2" [] [] [] []).1.cached = none ∧
      (searchJobsScored (searchJobsScored [] "developer" "" "t1" [] [] [] []).2
        "developer" "" "t2" [] [] [] []).1.cached ≠ some true := by
  decide

/-- C3 (amended).  In the part_001 variant, two consecutive `searchJobs`
calls with identical `(keywords, location)` give a second result with
`cached = true` and a job list identical to the first result's, and the
second call invokes no adapter: its outputs are independent of the second
call's adapter outcomes and it leaves the job store untouched.  In the
scored variant the second call also returns the identical cached job list,
but as stored — its `cached` field stays absent (`none`). -/
theorem C3_cache_hit_behavior :
    (∀ (cache : List (String × SearchResult)) (store store' : List (String × Job))
      (n n' : Nat) (keywords location today now today' now' : String)
      (o1 o2 o3 o1' o2' o3' : AdapterOutcome),
      (searchJobs (searchJobs cache store n keywords location today now o1 o2 o3).2.1
          store' n' keywords location today' now' o1' o2' o3').1.cached = true ∧
        (searchJobs (searchJobs cache store n keywords location today now o1 o2 o3).2.1
          store' n' keywords location today' now' o1' o2' o3').1.jobs =
          (searchJobs cache store n keywords location today now o1 o2 o3).1.jobs ∧
        (searchJobs (searchJobs cache store n keywords location today now o1 o2 o3).2.1
          store' n' keywords location today' now' o1' o2' o3').2.2.1 = store') ∧
      (∀ (keywords location now now' : String)
        (a1 b1 c1 d1 a2 b2 c2 d2 : List JobS),
        (searchJobsScored (searchJobsScored [] keywords location now a1 b1 c1 d1).2
            keywords location now' a2 b2 c2 d2).1.jobs =
          (searchJobsScored [] keywords location now a1 b1 c1 d1).1.jobs ∧
          (searchJobsScored (searchJobsScored [] keywords location now a1 b1 c1 d1).2
            keywords location now' a2 b2 c2 d2).1.cached = none) := by
  constructor
  · intro cache store store' n n' keywords location today now today' now'
      o1 o2 o3 o1' o2' o3'
    rcases hl : cache.lookup (generateCacheKey keywords location) with _ | c
    · -- first call misses: it caches its fresh result, the second call hits it
      simp only [searchJobs, hl]
      rw [lookup_mapSet_self]
      refine ⟨?_, ?_, ?_⟩ <;> trivial
    · -- first call hits: the cache is unchanged and the second call hits too
      simp only [searchJobs, hl]
      refine ⟨?_, ?_, ?_⟩ <;> trivial
  · intro keywords location now now' a1 b1 c1 d1 a2 b2 c2 d2
    simp only [searchJobsScored, List.lookup_nil]
    rw [lookup_mapSet_self]
    refine ⟨?_, ?_⟩ <;> trivial

/-!
## C8 — cache keys and query normalization
-/

/-- C8 counterexample.  The claim says any two `(keywords, location)` pairs
equal up to letter case and whitespace map to the same key.  The inputs
`"dev job"` and `"dev  job"` are equal up to whitespace (identical after
lower-casing and whitespace normalization), yet the base-variant keys
differ (whitespace is preserved verbatim there); likewise `" dev"` and
`"dev"` give different part_001 keys (leading whitespace is turned into
`'_'`, not trimmed). -/
theorem C8_cache_key_whitespace_cex :
    (cleanTextBase (jsToLower "dev job") = cleanTextBase (jsToLower "dev  job")) ∧
      generateCacheKeyBase "dev job" "" ≠ generateCacheKeyBase "dev  job" "" ∧
      (cleanTextBase (jsToLower " dev") = cleanTextBase (jsToLower "dev")) ∧
      generateCacheKey " dev" "" ≠ generateCacheKey "dev" "" := by
  decide

/-- C8 (amended).  The cache key is deterministic and case-insensitive:
pairs equal up to letter case always map to the same key, in every variant.
Whitespace is only partially normalized: the part_001 variant collapses
internal whitespace runs (so `"dev job"` and `"dev  job"` share a key
there), but neither variant trims, and the base variant keeps whitespace
verbatim. -/
theorem C8_cache_key_case_insensitive :
    (∀ k1 k2 l1 l2 : String,
      jsToLower k1 = jsToLower k2 → jsToLower l1 = jsToLower l2 →
      generateCacheKeyBase k1 l1 = generateCacheKeyBase k2 l2 ∧
        generateCacheKey k1 l1 = generateCacheKey k2 l2) ∧
      generateCacheKey "dev job" "" = generateCacheKey "dev  job" "" := by
  refine ⟨fun k1 k2 l1 l2 hk hl => ?_, by decide⟩
  rw [generateCacheKeyBase, generateCacheKeyBase, generateCacheKey,
    generateCacheKey, hk, hl]
  exact ⟨rfl, rfl⟩

/-- C8 witness: keys agree for inputs differing only in letter case. -/
theorem C8_cache_key_witness :
    generateCacheKeyBase "Dev" "NY" = generateCacheKeyBase "dEV" "ny" ∧
      generateCacheKey "Dev" "NY" = generateCacheKey "dEV" "ny" :=
  C8_cache_key_case_insensitive.1 "Dev" "dEV" "NY" "ny" (by decide) (by decide)

/-!
## C9 — normalization and store insertion
-/

/-- C9 counterexample.  The claim says `normalize(raw, source)` leaves the
Job Store unchanged.  In the base variant (src/index.js, first document)
`normalizeJobData` executes `jobsStore.set(id, normalizedJob)` itself:
called on an empty store it returns a one-element store. -/
theorem C9_normalize_mutates_store_cex :
    (normalizeJobDataBase "id1" "2026-01-01" rawSample "indeed" []).2 =
        [("id1", (normalizeJobDataBase "id1" "2026-01-01" rawSample "indeed" []).1)] ∧
      (normalizeJobDataBase "id1" "2026-01-01" rawSample "indeed" []).2 ≠ [] := by
  decide

/-- C9 (amended).  Store insertion is not a distinct orchestrator action
performed once per surviving record after deduplication and truncation.  In
the base variant `normalizeJobData` itself writes the record into the Job
Store (the returned store always contains the normalized record under its
id).  In the part_001 variant `normalizeJobData` is pure, but each adapter
inserts every record it normalizes before deduplication and truncation: a
search whose one adapter yields the same raw record twice returns a single
deduplicated job, yet the store has gained two entries. -/
theorem C9_store_insertion_not_post_dedupe :
    (∀ (id today : String) (raw : RawJob) (source : String)
      (store : List (String × JobB)),
      (normalizeJobDataBase id today raw source store).2.lookup id =
        some (normalizeJobDataBase id today raw source store).1) ∧
      (searchJobs [] [] 0 "developer" "" "2026-01-01" "t"
          (.ok [rawSample, rawSample]) .fail .fail).1.jobs.length = 1 ∧
      (searchJobs [] [] 0 "developer" "" "2026-01-01" "t"
          (.ok [rawSample, rawSample]) .fail .fail).2.2.1.length = 2 := by
  refine ⟨fun id today raw source store => ?_, by decide, by decide⟩
  exact lookup_mapSet_self store id _

/-!
## C7 — extractSalary
-/

/-- The `pseq` consumes a prefix if both parts do. -/
theorem pseq_consumes {a b : MatchFn}
    (ha : ∀ l c r, a l = some (c, r) → l = c ++ r)
    (hb : ∀ l c r, b l = some (c, r) → l = c ++ r) :
    ∀ l c r, pseq a b l = some (c, r) → l = c ++ r := by
  intro l c r h
  unfold pseq at h
  rcases h1 : a l with _ | ⟨c1, r1⟩ <;> rw [h1] at h <;> dsimp only at h
  · simp at h
  · rcases h2 : b r1 with _ | ⟨c2, r2⟩ <;> rw [h2] at h <;> dsimp only at h
    · simp at h
    · simp only [Option.some.injEq, Prod.mk.injEq] at h
      obtain ⟨hc, hr⟩ := h
      subst hc hr
      rw [ha l c1 r1 h1, hb r1 c2 r2 h2, List.append_assoc]

/-- The `palt` consumes a prefix if both alternatives do. -/
theorem palt_consumes {a b : MatchFn}
    (ha : ∀ l c r, a l = some (c, r) → l = c ++ r)
    (hb : ∀ l c r, b l = some (c, r) → l = c ++ r) :
    ∀ l c r, palt a b l = some (c, r) → l = c ++ r := by
  intro l c r h
  unfold palt at h
  rcases h1 : a l with _ | x <;> rw [h1] at h
  · exact hb l c r h
  · cases h
    exact ha l c r h1

/-- The `pchar` consumes a prefix. -/
theorem pchar_consumes (p : Char → Bool) :
    ∀ l c r, pchar p l = some (c, r) → l = c ++ r := by
  intro l c r h
  unfold pchar at h
  rcases l with _ | ⟨d, rest⟩
  · simp at h
  · dsimp only at h
    by_cases hd : p d
    · rw [if_pos hd] at h
      simp only [Option.some.injEq, Prod.mk.injEq] at h
      obtain ⟨hc, hr⟩ := h
      subst hc hr
      rfl
    · rw [if_neg hd] at h
      simp at h

/-- The `pwsStar` consumes a prefix. -/
theorem pwsStar_consumes :
    ∀ l c r, pwsStar l = some (c, r) → l = c ++ r := by
  intro l c r h
  unfold pwsStar at h
  simp only [Option.some.injEq, Prod.mk.injEq] at h
  obtain ⟨hc, hr⟩ := h
  subst hc hr
  exact (List.takeWhile_append_dropWhile ..).symm

/-- The `pstrCI` consumes a prefix. -/
theorem pstrCI_consumes (s : List Char) :
    ∀ l c r, pstrCI s l = some (c, r) → l = c ++ r := by
  induction s with
  | nil =>
    intro l c r h
    unfold pstrCI at h
    simp only [Option.some.injEq, Prod.mk.injEq] at h
    obtain ⟨hc, hr⟩ := h
    subst hc hr
    rfl
  | cons x xs ih =>
    intro l c r h
    unfold pstrCI at h
    rcases l with _ | ⟨d, rest⟩
    · simp at h
    · dsimp only at h
      by_cases hd : d.toLower = x.toLower
      · rw [if_pos hd] at h
        rcases h2 : pstrCI xs rest with _ | ⟨m, r2⟩ <;> rw [h2] at h <;> dsimp only at h
        · simp at h
        · simp only [Option.some.injEq, Prod.mk.injEq] at h
          obtain ⟨rfl, rfl⟩ := h
          rw [ih rest m _ h2]
          rfl
      · rw [if_neg hd] at h
        simp at h

/-- The `digits13` consumes a prefix. -/
theorem digits13_consumes :
    ∀ l c r, digits13 l = some (c, r) → l = c ++ r := by
  intro l c r h
  unfold digits13 at h
  rcases l with _ | ⟨c1, _ | ⟨c2, _ | ⟨c3, rest⟩⟩⟩ <;> dsimp only at h <;>
    first
    | (split_ifs at h <;> simp_all <;> (try (obtain ⟨rfl, rfl⟩ := h; rfl)))
    | simp_all

/-- The `commaGroups` consumes a prefix (fuel-based induction on the list
length, since each recursive step consumes four characters). -/
theorem commaGroups_consumes_fuel :
    ∀ (n : Nat) (l : List Char), l.length ≤ n →
      ∀ c r, commaGroups l = (c, r) → l = c ++ r := by
  intro n
  induction n with
  | zero =>
    intro l hl c r h
    rcases l with _ | ⟨a, rest⟩
    · cases h
      rfl
    · simp at hl
  | succ n ih =>
    intro l hl c r h
    rcases l with _ | ⟨a, _ | ⟨d1, _ | ⟨d2, _ | ⟨d3, rest⟩⟩⟩⟩
    · cases h
      rfl
    · cases h
      rfl
    · cases h
      rfl
    · cases h
      rfl
    · unfold commaGroups at h
      dsimp only at h
      split_ifs at h with hc
      · rcases hcg : commaGroups rest with ⟨c0, r0⟩
        rw [hcg] at h
        dsimp only at h
        rw [Prod.mk.injEq] at h
        obtain ⟨rfl, rfl⟩ := h
        have hrest : rest.length ≤ n := by
          simp only [List.length_cons] at hl
          omega
        rw [ih rest hrest c0 r0 hcg]
        rfl
      · cases h
        rfl

/-- The `commaGroups` consumes a prefix. -/
theorem commaGroups_consumes :
    ∀ l c r, commaGroups l = (c, r) → l = c ++ r := fun l =>
  commaGroups_consumes_fuel l.length l (Nat.le_refl _)

/-- The `decPart` consumes a prefix. -/
theorem decPart_consumes :
    ∀ l c r, decPart l = (c, r) → l = c ++ r := by
  intro l c r h
  rcases l with _ | ⟨a, _ | ⟨d1, _ | ⟨d2, rest⟩⟩⟩ <;> (try (cases h; rfl))
  unfold decPart at h
  dsimp only at h
  split_ifs at h with hc
  · rw [Prod.mk.injEq] at h
    obtain ⟨rfl, rfl⟩ := h
    rfl
  · cases h
    rfl

/-- The `numPat` consumes a prefix. -/
theorem numPat_consumes :
    ∀ l c r, numPat l = some (c, r) → l = c ++ r := by
  intro l c r h
  unfold numPat at h
  rcases h1 : digits13 l with _ | ⟨c1, r1⟩ <;> rw [h1] at h <;> dsimp only at h
  · simp at h
  · rcases h2 : commaGroups r1 with ⟨c2, r2⟩
    rw [h2] at h
    dsimp only at h
    rcases h3 : decPart r2 with ⟨c3, r3⟩
    rw [h3] at h
    dsimp only at h
    rw [Option.some.injEq, Prod.mk.injEq] at h
    obtain ⟨rfl, rfl⟩ := h
    rw [digits13_consumes l c1 r1 h1, commaGroups_consumes r1 c2 r2 h2,
      decPart_consumes r2 c3 r3 h3]
    simp [List.append_assoc]

/-- Pattern 1 consumes a prefix. -/
theorem patDollarRange_consumes :
    ∀ l c r, patDollarRange l = some (c, r) → l = c ++ r :=
  pseq_consumes (pchar_consumes _)
    (pseq_consumes numPat_consumes
      (pseq_consumes pwsStar_consumes
        (pseq_consumes (pchar_consumes _)
          (pseq_consumes pwsStar_consumes
            (pseq_consumes (pchar_consumes _) numPat_consumes)))))

/-- Pattern 2 consumes a prefix. -/
theorem patDollarToRange_consumes :
    ∀ l c r, patDollarToRange l = some (c, r) → l = c ++ r :=
  pseq_consumes (pchar_consumes _)
    (pseq_consumes numPat_consumes
      (pseq_consumes pwsStar_consumes
        (pseq_consumes (palt_consumes (pstrCI_consumes _) (pchar_consumes _))
          (pseq_consumes pwsStar_consumes
            (pseq_consumes (pchar_consumes _) numPat_consumes)))))

/-- Pattern 3 consumes a prefix. -/
theorem patKRange_consumes :
    ∀ l c r, patKRange l = some (c, r) → l = c ++ r :=
  pseq_consumes numPat_consumes
    (pseq_consumes pwsStar_consumes
      (pseq_consumes (pchar_consumes _)
        (pseq_consumes pwsStar_consumes
          (pseq_consumes numPat_consumes
            (pseq_consumes pwsStar_consumes
              (palt_consumes (pchar_consumes _) (pstrCI_consumes _)))))))

/-- Pattern 4 consumes a prefix. -/
theorem patPerUnit_consumes :
    ∀ l c r, patPerUnit l = some (c, r) → l = c ++ r :=
  pseq_consumes (pchar_consumes _)
    (pseq_consumes numPat_consumes
      (pseq_consumes pwsStar_consumes
        (pseq_consumes (palt_consumes (pstrCI_consumes _) (pchar_consumes _))
          (pseq_consumes pwsStar_consumes
            (palt_consumes (pstrCI_consumes _)
              (palt_consumes (pstrCI_consumes _)
                (palt_consumes (pstrCI_consumes _)
                  (palt_consumes (pstrCI_consumes _) (pstrCI_consumes _)))))))))

/-- A leftmost match of a prefix-consuming matcher is a contiguous substring
of the text. -/
theorem firstMatch_infix {m : MatchFn}
    (hm : ∀ l c r, m l = some (c, r) → l = c ++ r) :
    ∀ l s, firstMatch m l = some s → ∃ pre post, l = pre ++ (s ++ post) := by
  intro l
  induction l with
  | nil =>
    intro s h
    unfold firstMatch at h
    rcases h1 : m [] with _ | ⟨c, r⟩ <;> rw [h1] at h <;> dsimp only at h
    · simp at h
    · rw [Option.some.injEq] at h
      subst h
      exact ⟨[], r, hm _ _ r h1⟩
  | cons a rest ih =>
    intro s h
    unfold firstMatch at h
    rcases h1 : m (a :: rest) with _ | ⟨c, r⟩ <;> rw [h1] at h <;> dsimp only at h
    · obtain ⟨pre, post, hp⟩ := ih s h
      exact ⟨a :: pre, post, by rw [List.cons_append, hp]⟩
    · rw [Option.some.injEq] at h
      subst h
      exact ⟨[], r, by simpa using hm _ _ r h1⟩

/-- C7.  `extractSalary` tries its salary patterns in a fixed priority
order and returns the first full match as a literal substring of the input
(`none` when no pattern matches anywhere).  In particular on
`"Pay: $80,000 - $95,000 per year"` it returns `"$80,000 - $95,000"`: the
currency-range pattern has priority over the per-year single-value pattern,
which would otherwise match `"$95,000 per year"`. -/
theorem C7_extractSalary_first_match :
    (∀ text s : String, extractSalary text = some s →
      ∃ pre post : List Char, text.data = pre ++ (s.data ++ post)) ∧
      extractSalary "Pay: $80,000 - $95,000 per year" = some "$80,000 - $95,000" ∧
      extractSalary "no salary here" = none := by
  refine ⟨?_, by decide, by decide⟩
  intro text s h
  unfold extractSalary at h
  split_ifs at h with ht
  rcases h1 : firstMatch patDollarRange text.data with _ | m <;>
    rw [h1] at h <;> dsimp only at h
  · -- this pattern has no match anywhere; try the next one
    rcases h2 : firstMatch patDollarToRange text.data with _ | m <;>
      rw [h2] at h <;> dsimp only at h
    · -- this pattern has no match anywhere; try the next one
      rcases h3 : firstMatch patKRange text.data with _ | m <;>
        rw [h3] at h <;> dsimp only at h
      · -- this pattern has no match anywhere; try the next one
        rcases h4 : firstMatch patPerUnit text.data with _ | m <;>
          rw [h4] at h <;> dsimp only at h
        · simp at h
        · rw [Option.some.injEq] at h
          subst h
          exact firstMatch_infix patPerUnit_consumes text.data m h4
      · rw [Option.some.injEq] at h
        subst h
        exact firstMatch_infix patKRange_consumes text.data m h3
    · rw [Option.some.injEq] at h
      subst h
      exact firstMatch_infix patDollarToRange_consumes text.data m h2
  · rw [Option.some.injEq] at h
    subst h
    exact firstMatch_infix patDollarRange_consumes text.data m h1

/-- C7 witness: the matched salary of the concrete example is a literal
substring of the example text. -/
theorem C7_extractSalary_witness :
    ∃ pre post : List Char,
      ("Pay: $80,000 - $95,000 per year" : String).data =
        pre ++ (("$80,000 - $95,000" : String).data ++ post) :=
  C7_extractSalary_first_match.1 "Pay: $80,000 - $95,000 per year"
    "$80,000 - $95,000" C7_extractSalary_first_match.2.1

/-!
## C6 — cleanText
-/

/-- The `[\n\r\t]` is contained in the whitespace class. -/
theorem isNrt_imp_isWs (c : Char) (h : isNrt c = true) : isWs c = true := by
  simp only [isNrt, isWs, Bool.or_eq_true, decide_eq_true_eq] at h ⊢
  tauto

/-- Every character of the whitespace-collapsed text is a space or a
non-whitespace character of the input. -/
theorem collapseWs_mem :
    ∀ (prev : Bool) (l : List Char) (c : Char),
      c ∈ collapseAux isWs ' ' prev l → c = ' ' ∨ isWs c = false := by
  intro prev l
  induction l generalizing prev with
  | nil => intro c h; simp [collapseAux] at h
  | cons a rest ih =>
    intro c h
    unfold collapseAux at h
    by_cases ha : isWs a
    · rw [if_pos ha] at h
      by_cases hp : prev
      · rw [if_pos hp] at h
        exact ih true c h
      · rw [if_neg hp] at h
        rcases List.mem_cons.mp h with rfl | h2
        · exact Or.inl rfl
        · exact ih true c h2
    · rw [if_neg ha] at h
      rcases List.mem_cons.mp h with rfl | h2
      · exact Or.inr (by simpa using ha)
      · exact ih false c h2

/-- Inside a run (`prev = true`) the next emitted character is
non-whitespace. -/
theorem collapseWs_true_head :
    ∀ (l : List Char) (c : Char),
      (collapseAux isWs ' ' true l).head? = some c → isWs c = false := by
  intro l
  induction l with
  | nil => intro c h; simp [collapseAux] at h
  | cons a rest ih =>
    intro c h
    unfold collapseAux at h
    by_cases ha : isWs a
    · rw [if_pos ha, if_pos rfl] at h
      exact ih c h
    · rw [if_neg ha] at h
      rw [List.head?_cons, Option.some.injEq] at h
      subst h
      simpa using ha

/-- The whitespace-collapsed text has no two adjacent whitespace
characters. -/
theorem collapseWs_chain :
    ∀ (prev : Bool) (l : List Char), noAdjacentWs (collapseAux isWs ' ' prev l) := by
  intro prev l
  induction l generalizing prev with
  | nil => simp [collapseAux, noAdjacentWs]
  | cons a rest ih =>
    unfold collapseAux
    by_cases ha : isWs a
    · rw [if_pos ha]
      by_cases hp : prev
      · rw [if_pos hp]
        exact ih true
      · rw [if_neg hp]
        rw [noAdjacentWs, List.chain'_cons']
        refine ⟨fun y hy => Or.inr (collapseWs_true_head rest y ?_), ih true⟩
        simpa using hy
    · rw [if_neg ha]
      rw [noAdjacentWs, List.chain'_cons']
      exact ⟨fun y _ => Or.inl (by simpa using ha), ih false⟩

/-- Collapsing whitespace leaves the non-whitespace characters untouched. -/
theorem collapseWs_filter :
    ∀ (prev : Bool) (l : List Char),
      (collapseAux isWs ' ' prev l).filter (fun c => !(isWs c)) =
        l.filter (fun c => !(isWs c)) := by
  intro prev l
  induction l generalizing prev with
  | nil => rfl
  | cons a rest ih =>
    unfold collapseAux
    by_cases ha : isWs a
    · have hfa : (!isWs a) = false := by simpa using ha
      have hsp : (!isWs ' ') = false := by simp [isWs]
      by_cases hp : prev
      · rw [if_pos ha, if_pos hp]
        simp only [List.filter_cons, hfa, Bool.false_eq_true, if_false]
        exact ih true
      · rw [if_pos ha, if_neg hp]
        simp only [List.filter_cons, hfa, hsp, Bool.false_eq_true, if_false]
        exact ih true
    · have hfa : (!isWs a) = true := by simpa using ha
      rw [if_neg ha]
      simp only [List.filter_cons, hfa, if_true]
      rw [ih false]

/-- On already-normalized text (all whitespace is `' '`, none adjacent)
collapsing is the identity. -/
theorem collapseWs_id_fuel :
    ∀ (n : Nat) (l : List Char), l.length ≤ n →
      (∀ c ∈ l, isWs c = true → c = ' ') → noAdjacentWs l →
      collapseAux isWs ' ' false l = l := by
  intro n
  induction n with
  | zero =>
    intro l hl _ _
    rcases l with _ | ⟨a, rest⟩
    · rfl
    · simp at hl
  | succ n ih =>
    intro l hl hmem hchain
    rcases l with _ | ⟨a, rest⟩
    · rfl
    · by_cases ha : isWs a
      · have haSp : a = ' ' := hmem a (List.mem_cons_self ..) ha
        rcases rest with _ | ⟨b, rest2⟩
        · unfold collapseAux
          rw [if_pos ha]
          simp [collapseAux, haSp]
        · have hb : isWs b = false := by
            rcases (List.chain'_cons.mp hchain).1 with h | h
            · rw [ha] at h
              cases h
            · exact h
          unfold collapseAux
          rw [if_pos ha]
          unfold collapseAux
          rw [if_neg (by simp [hb])]
          have htail : collapseAux isWs ' ' false rest2 = rest2 := by
            refine ih rest2 ?_ ?_ ?_
            · simp only [List.length_cons] at hl
              omega
            · intro c hc hcw
              exact hmem c (List.mem_cons_of_mem _ (List.mem_cons_of_mem _ hc)) hcw
            · exact ((List.chain'_cons.mp hchain).2).tail
          rw [htail, haSp]
          simp [hb]
      · unfold collapseAux
        rw [if_neg ha]
        have htail : collapseAux isWs ' ' false rest = rest := by
          refine ih rest ?_ ?_ ?_
          · simp only [List.length_cons] at hl
            omega
          · intro c hc hcw
            exact hmem c (List.mem_cons_of_mem _ hc) hcw
          · exact List.Chain'.tail hchain
        rw [htail]

/-- Membership survives `dropWhile`. -/
theorem mem_dropWhile_sub (p : Char → Bool) :
    ∀ (l : List Char) (c : Char), c ∈ l.dropWhile p → c ∈ l := by
  intro l
  induction l with
  | nil => intro c h; simp at h
  | cons a rest ih =>
    intro c h
    rw [List.dropWhile_cons] at h
    split_ifs at h
    · exact List.mem_cons_of_mem _ (ih c h)
    · exact h

/-- The head of `dropWhile p` does not satisfy `p`. -/
theorem dropWhile_head_not (p : Char → Bool) :
    ∀ (l : List Char) (c : Char), (l.dropWhile p).head? = some c → p c = false := by
  intro l
  induction l with
  | nil => intro c h; simp at h
  | cons a rest ih =>
    intro c h
    rw [List.dropWhile_cons] at h
    split_ifs at h with ha
    · exact ih c h
    · rw [List.head?_cons, Option.some.injEq] at h
      subst h
      simpa using ha

/-- The `dropWhile` preserves the no-adjacent-whitespace property. -/
theorem chain'_dropWhile (p : Char → Bool) :
    ∀ l : List Char, noAdjacentWs l → noAdjacentWs (l.dropWhile p) := by
  intro l h
  induction l with
  | nil => simpa using h
  | cons a rest ih =>
    rw [List.dropWhile_cons]
    split_ifs
    · exact ih (List.Chain'.tail h)
    · exact h

/-- The `dropWhile isWs` does not touch the non-whitespace characters. -/
theorem dropWhile_ws_filter :
    ∀ l : List Char,
      (l.dropWhile isWs).filter (fun c => !(isWs c)) =
        l.filter (fun c => !(isWs c)) := by
  intro l
  induction l with
  | nil => rfl
  | cons a rest ih =>
    rw [List.dropWhile_cons]
    split_ifs with ha
    · have hfa : (!isWs a) = false := by simpa using ha
      rw [ih, List.filter_cons]
      simp [hfa]
    · rfl

/-- If `dropWhile` leaves something, the last element is unchanged. -/
theorem dropWhile_getLast_eq (p : Char → Bool) :
    ∀ l : List Char, l.dropWhile p ≠ [] →
      (l.dropWhile p).getLast? = l.getLast? := by
  intro l
  induction l with
  | nil => intro h; simp at h
  | cons a rest ih =>
    intro h
    rw [List.dropWhile_cons]
    rw [List.dropWhile_cons] at h
    split_ifs at h ⊢ with ha
    · rcases rest with _ | ⟨b, rest2⟩
      · simp at h
      · rw [ih h, List.getLast?_cons_cons]
    · rfl

/-- Reversal preserves the no-adjacent-whitespace property. -/
theorem chain'_rev_ws (l : List Char) (h : noAdjacentWs l) :
    noAdjacentWs l.reverse := by
  rw [noAdjacentWs, List.chain'_reverse]
  exact List.Chain'.imp (fun a b hab => hab.symm) h

/-- Membership survives trimming. -/
theorem trim_mem_sub (l : List Char) (c : Char) (h : c ∈ trimWs l) : c ∈ l := by
  unfold trimWs at h
  rw [List.mem_reverse] at h
  have h2 := mem_dropWhile_sub isWs _ c h
  rw [List.mem_reverse] at h2
  exact mem_dropWhile_sub isWs _ c h2

/-- Trimming preserves the no-adjacent-whitespace property. -/
theorem trim_chain (l : List Char) (h : noAdjacentWs l) : noAdjacentWs (trimWs l) := by
  unfold trimWs
  exact chain'_rev_ws _ (chain'_dropWhile isWs _ (chain'_rev_ws _ (chain'_dropWhile isWs _ h)))

/-- The trimmed text does not start with whitespace. -/
theorem trim_head_not (l : List Char) (c : Char)
    (h : (trimWs l).head? = some c) : isWs c = false := by
  unfold trimWs at h
  rcases hw : (l.dropWhile isWs).reverse.dropWhile isWs with _ | ⟨b, w2⟩
  · rw [hw] at h
    simp at h
  · rw [hw] at h
    rw [List.head?_reverse] at h
    rw [← hw] at h
    rw [dropWhile_getLast_eq isWs _ (by rw [hw]; simp)] at h
    rw [List.getLast?_reverse] at h
    exact dropWhile_head_not isWs _ c h

/-- The trimmed text does not end with whitespace. -/
theorem trim_last_not (l : List Char) (c : Char)
    (h : (trimWs l).reverse.head? = some c) : isWs c = false := by
  unfold trimWs at h
  rw [List.reverse_reverse] at h
  exact dropWhile_head_not isWs _ c h

/-- Trimming does not touch the non-whitespace characters. -/
theorem trim_filter (l : List Char) :
    (trimWs l).filter (fun c => !(isWs c)) = l.filter (fun c => !(isWs c)) := by
  unfold trimWs
  rw [List.filter_reverse, dropWhile_ws_filter, List.filter_reverse,
    List.reverse_reverse, dropWhile_ws_filter]

/-- The `dropWhile` is the identity when the head does not satisfy `p`. -/
theorem dropWhile_id_of_head (p : Char → Bool) (l : List Char)
    (h : ∀ c, l.head? = some c → p c = false) : l.dropWhile p = l := by
  rcases l with _ | ⟨a, rest⟩
  · rfl
  · rw [List.dropWhile_cons, if_neg (by simp [h a rfl])]

/-- Trimming already-trimmed text is the identity. -/
theorem trimWs_id (l : List Char)
    (h1 : ∀ c, l.head? = some c → isWs c = false)
    (h2 : ∀ c, l.reverse.head? = some c → isWs c = false) : trimWs l = l := by
  unfold trimWs
  rw [dropWhile_id_of_head isWs l h1, dropWhile_id_of_head isWs l.reverse h2,
    List.reverse_reverse]

/-- The first two steps of `cleanText` produce whitespace-normalized text. -/
theorem trim_collapse_normalized (l : List Char) :
    wsNormalized (trimWs (collapseWs l)) := by
  refine ⟨?_, ?_, ?_, ?_⟩
  · intro c hc hw
    rcases collapseWs_mem false l c (trim_mem_sub _ c hc) with h | h
    · exact h
    · rw [hw] at h
      cases h
  · exact trim_chain _ (collapseWs_chain false l)
  · exact trim_head_not _
  · exact trim_last_not _

/-- Replacing `[\n\r\t]+` runs is the identity on text without those
characters. -/
theorem collapseNrt_id :
    ∀ (prev : Bool) (l : List Char), (∀ c ∈ l, isNrt c = false) →
      collapseAux isNrt ' ' prev l = l := by
  intro prev l
  induction l generalizing prev with
  | nil => intro _; rfl
  | cons a rest ih =>
    intro h
    unfold collapseAux
    rw [if_neg (by simp [h a (List.mem_cons_self ..)])]
    rw [ih false (fun c hc => h c (List.mem_cons_of_mem _ hc))]

/-- Replacing `\s{2,}` runs is the identity on text with no two adjacent
whitespace characters. -/
theorem squeezeWs_id_fuel :
    ∀ (n : Nat) (l : List Char), l.length ≤ n → noAdjacentWs l →
      squeezeWs l = l := by
  intro n
  induction n with
  | zero =>
    intro l hl _
    rcases l with _ | ⟨a, rest⟩
    · rfl
    · simp at hl
  | succ n ih =>
    intro l hl hchain
    rcases l with _ | ⟨a, rest⟩
    · rfl
    · unfold squeezeWs
      by_cases ha : isWs a
      · rw [if_pos ha]
        rcases rest with _ | ⟨b, rest2⟩
        · rfl
        · have hb : isWs b = false := by
            rcases (List.chain'_cons.mp hchain).1 with h | h
            · rw [ha] at h
              cases h
            · exact h
          unfold squeezePend
          rw [if_neg (by simp [hb])]
          rw [ih rest2 (by simp only [List.length_cons] at hl; omega)
            ((List.chain'_cons.mp hchain).2).tail]
      · rw [if_neg ha]
        rw [ih rest (by simp only [List.length_cons] at hl; omega)
          (List.Chain'.tail hchain)]

/-- On whitespace-normalized text the collapse+trim pipeline is the
identity. -/
theorem pipeline_id (l : List Char) (h : wsNormalized l) :
    trimWs (collapseWs l) = l := by
  obtain ⟨hmem, hchain, hhead, hlast⟩ := h
  have hc : collapseWs l = l := by
    unfold collapseWs
    exact collapseWs_id_fuel l.length l (Nat.le_refl _) hmem hchain
  rw [hc]
  exact trimWs_id l hhead hlast

/-- The part_001 `cleanText` equals the base-variant `cleanText`: its two
extra replacement steps are no-ops on collapsed-and-trimmed text. -/
theorem cleanText_eq_base (s : String) : cleanText s = cleanTextBase s := by
  unfold cleanText cleanTextBase
  split_ifs with h
  · rfl
  · obtain ⟨hmem, hchain, _, _⟩ := trim_collapse_normalized s.data
    have h3 : collapseNrt (trimWs (collapseWs s.data)) = trimWs (collapseWs s.data) := by
      unfold collapseNrt
      apply collapseNrt_id
      intro c hc
      rcases hn : isNrt c with _ | _
      · rfl
      · have hw := isNrt_imp_isWs c hn
        have hsp := hmem c hc hw
        rw [hsp] at hn
        simp [isNrt] at hn
    rw [h3, squeezeWs_id_fuel (trimWs (collapseWs s.data)).length _ (Nat.le_refl _) hchain]

/-- The base `cleanText` is idempotent. -/
theorem cleanTextBase_idem (s : String) :
    cleanTextBase (cleanTextBase s) = cleanTextBase s := by
  by_cases h : s = ""
  · subst h
    rfl
  · have hs : cleanTextBase s = String.mk (trimWs (collapseWs s.data)) := by
      unfold cleanTextBase
      rw [if_neg h]
    rw [hs]
    by_cases h2 : String.mk (trimWs (collapseWs s.data)) = ""
    · rw [h2]
      rfl
    · conv_lhs => unfold cleanTextBase
      rw [if_neg h2]
      show String.mk (trimWs (collapseWs (trimWs (collapseWs s.data)))) = _
      rw [pipeline_id _ (trim_collapse_normalized s.data)]

/-- C6.  `cleanText` (part_001 and scored variant) and the base-variant
`cleanText` agree; empty input yields the empty string; both are idempotent;
the output is whitespace-normalized (every whitespace character is a single
space, no two adjacent, no leading or trailing whitespace) and the
non-whitespace characters of the input are preserved in order: only
whitespace is altered. -/
theorem C6_cleanText_idempotent_normalizing :
    cleanText "" = "" ∧ cleanTextBase "" = "" ∧
      (∀ s : String, cleanText s = cleanTextBase s) ∧
      (∀ s : String, cleanText (cleanText s) = cleanText s) ∧
      (∀ s : String, cleanTextBase (cleanTextBase s) = cleanTextBase s) ∧
      (∀ s : String, wsNormalized (cleanText s).data) ∧
      (∀ s : String, (cleanText s).data.filter (fun c => !(isWs c)) =
        s.data.filter (fun c => !(isWs c))) := by
  have hnorm : ∀ s : String, wsNormalized (cleanText s).data := by
    intro s
    rw [cleanText_eq_base]
    unfold cleanTextBase
    split_ifs with h
    · exact ⟨fun c hc => by simp at hc, by simp [noAdjacentWs], fun c hc => by simp at hc,
        fun c hc => by simp at hc⟩
    · exact trim_collapse_normalized s.data
  refine ⟨by decide, by decide, cleanText_eq_base, ?_, cleanTextBase_idem, hnorm, ?_⟩
  · intro s
    rw [cleanText_eq_base, cleanText_eq_base, cleanTextBase_idem]
  · intro s
    rw [cleanText_eq_base]
    unfold cleanTextBase
    split_ifs with h
    · rw [h]
    · show (trimWs (collapseWs s.data)).filter _ = _
      rw [trim_filter]
      unfold collapseWs
      exact collapseWs_filter false s.data

/-- C6 witness: a concrete cleaning plus idempotence at that input. -/
theorem C6_cleanText_witness :
    cleanText "  hello \n\t world  " = "hello world" ∧
      cleanText (cleanText "  hello \n\t world  ") =
        cleanText "  hello \n\t world  " :=
  ⟨by decide,
    C6_cleanText_idempotent_normalizing.2.2.2.1 "  hello \n\t world  "⟩
